import Mathlib

/-!
Verification of the inflight local MCP plugin against its specification.

The TypeScript sources are shallowly embedded:
* `FileMap`s (plain JS objects keyed by relative path) become insertion-ordered
  association lists `List (String × FileEntry)`.
* JS strings become Lean `String`s; where structural reasoning is needed
  (URL sanitising, path pattern tests) the regex tests are expressed over
  `List Char` / via decidable list predicates.
* Byte buffers become `List Nat` (each element a byte value).
* Filesystem, git subprocesses, the WHATWG URL parser and JSON parsing are
  external effects; they are modelled as explicit oracle parameters or data,
  and every claim quantifies over them.
Machine arithmetic notes are attached to the individual definitions.
-/

namespace Inflight

/-- JS `a || b` for optional strings: an absent (`undefined`) or empty string
is falsy and selects the default. -/
def jsOrStr (a : Option String) (d : String) : String :=
  match a with
  | none => d
  | some s => if s == "" then d else s

/-- Truthiness of a JS string that may be `undefined`: `none` and `some ""`
are falsy. -/
def optTruthy (a : Option String) : Bool :=
  match a with
  | none => false
  | some s => !(s == "")

/-- JS `a || b` where both operands are optional strings (`b` may itself be
`undefined`). -/
def jsOrOpt (a b : Option String) : Option String :=
  if optTruthy a then a else b

/-- JS `x || 0` for an optional number (absent or `0` gives the default). -/
def jsOrInt (a : Option Int) (d : Int) : Int :=
  match a with
  | none => d
  | some v => if v == 0 then d else v

/-! ## File utilities (`src/plugin/local-mcp/utils/git-utils.ts`, file-utils part)

`FileContent` (`{content, encoding: "base64"}`) versus a plain string entry is
embedded as the two-constructor `FileEntry`; `FileMap` objects become
association lists in insertion order. -/

/-- A `FileMap` entry: a plain UTF-8 string, or a `{content, encoding:"base64"}`
object for binary files. -/
inductive FileEntry where
  | utf8 (content : String)
  | base64 (content : String)
deriving DecidableEq

/-- Embedding of `getFileContent`: the content string of either entry form. -/
def getFileContent : FileEntry → String
  | .utf8 c => c
  | .base64 c => c

/-- Embedding of `getFileSize`: `getFileContent(file).length`. -/
def getFileSize (f : FileEntry) : Nat :=
  (getFileContent f).length

/-- A file map: repo-relative path keys with their entries, in insertion
order. -/
abbrev FileMap := List (String × FileEntry)

/-- Embedding of `calculateTotalSize`: `Object.values(files).reduce((sum, f) => sum + getFileSize(f), 0)`. -/
def calculateTotalSize (files : FileMap) : Nat :=
  files.foldl (fun sum kv => sum + getFileSize kv.2) 0

/-- The constant `MAX_CHUNK_SIZE = 2 * 1024 * 1024`. -/
def MAX_CHUNK_SIZE : Nat := 2 * 1024 * 1024

/-- The constant `CHUNK_THRESHOLD = 3 * 1024 * 1024`. -/
def CHUNK_THRESHOLD : Nat := 3 * 1024 * 1024

/-- Embedding of `needsChunkedUpload`: total size strictly above the
threshold. -/
def needsChunkedUpload (files : FileMap) : Bool :=
  CHUNK_THRESHOLD < calculateTotalSize files

/-- The `for (const [filePath, file] of entries)` loop of `chunkFiles`,
carrying `chunks`, `currentChunk` and `currentSize` (the JS truthiness tests
`Object.keys(currentChunk).length > 0` become `currentChunk ≠ []`). -/
def chunkFilesLoop (maxChunkSize : Nat) :
    List (String × FileEntry) → List FileMap → FileMap → Nat → List FileMap
  | [], chunks, currentChunk, _ =>
      if currentChunk = [] then chunks else chunks ++ [currentChunk]
  | (filePath, file) :: rest, chunks, currentChunk, currentSize =>
      let fileSize := getFileSize file
      if maxChunkSize < fileSize then
        let chunks' := if currentChunk = [] then chunks else chunks ++ [currentChunk]
        chunkFilesLoop maxChunkSize rest (chunks' ++ [[(filePath, file)]]) [] 0
      else if maxChunkSize < currentSize + fileSize ∧ currentChunk ≠ [] then
        chunkFilesLoop maxChunkSize rest (chunks ++ [currentChunk]) [(filePath, file)] fileSize
      else
        chunkFilesLoop maxChunkSize rest chunks (currentChunk ++ [(filePath, file)]) (currentSize + fileSize)

/-- Embedding of `chunkFiles`: sort entries ascending by size (JS
`Array.prototype.sort` is stable, hence `mergeSort`), then the greedy loop. -/
def chunkFiles (files : FileMap) (maxChunkSize : Nat) : List FileMap :=
  let entries := files.mergeSort (fun a b => decide (getFileSize a.2 ≤ getFileSize b.2))
  chunkFilesLoop maxChunkSize entries [] [] 0

theorem calculateTotalSize_eq_sum (files : FileMap) :
    calculateTotalSize files = (files.map (fun kv => getFileSize kv.2)).sum := by
  have h : ∀ (l : FileMap) (a : Nat),
      l.foldl (fun sum kv => sum + getFileSize kv.2) a = a + (l.map (fun kv => getFileSize kv.2)).sum := by
    intro l
    induction l with
    | nil => simp
    | cons hd tl ih => intro a; simp [List.foldl_cons, ih, Nat.add_assoc]
  simpa using h files 0

theorem calculateTotalSize_append (a b : FileMap) :
    calculateTotalSize (a ++ b) = calculateTotalSize a + calculateTotalSize b := by
  simp [calculateTotalSize_eq_sum]

theorem chunkFilesLoop_flatten (maxChunkSize : Nat) :
    ∀ (l : List (String × FileEntry)) (chunks : List FileMap) (cur : FileMap) (s : Nat),
      (chunkFilesLoop maxChunkSize l chunks cur s).flatten = chunks.flatten ++ cur ++ l := by
  intro l
  induction l with
  | nil =>
    intro chunks cur s
    by_cases h : cur = []
    · subst h; simp [chunkFilesLoop]
    · simp [chunkFilesLoop, h]
  | cons hd tl ih =>
    intro chunks cur s
    obtain ⟨filePath, file⟩ := hd
    simp only [chunkFilesLoop]
    by_cases h1 : maxChunkSize < getFileSize file
    · rw [if_pos h1]
      by_cases h2 : cur = []
      · subst h2; rw [if_pos rfl]; simp [ih]
      · rw [if_neg h2]; simp [ih]
    · rw [if_neg h1]
      by_cases h2 : maxChunkSize < s + getFileSize file ∧ cur ≠ []
      · rw [if_pos h2]; simp [ih]
      · rw [if_neg h2]; simp [ih]

/-- A chunk is acceptable when its aggregate size is bounded by the maximum,
or it is a singleton whose lone file itself exceeds the maximum. -/
def ChunkOk (maxChunkSize : Nat) (c : FileMap) : Prop :=
  calculateTotalSize c ≤ maxChunkSize ∨ ∃ kv, c = [kv] ∧ maxChunkSize < getFileSize kv.2

theorem chunkFilesLoop_ok (maxChunkSize : Nat) :
    ∀ (l : List (String × FileEntry)) (chunks : List FileMap) (cur : FileMap),
      (∀ c ∈ chunks, ChunkOk maxChunkSize c) →
      calculateTotalSize cur ≤ maxChunkSize →
      ∀ c ∈ chunkFilesLoop maxChunkSize l chunks cur (calculateTotalSize cur),
        ChunkOk maxChunkSize c := by
  intro l
  induction l with
  | nil =>
    intro chunks cur hchunks hcur c hc
    by_cases h : cur = []
    · rw [chunkFilesLoop, if_pos h] at hc
      exact hchunks c hc
    · rw [chunkFilesLoop, if_neg h] at hc
      rcases List.mem_append.mp hc with h' | h'
      · exact hchunks c h'
      · simp only [List.mem_singleton] at h'
        exact h' ▸ Or.inl hcur
  | cons hd tl ih =>
    intro chunks cur hchunks hcur c hc
    obtain ⟨filePath, file⟩ := hd
    rw [chunkFilesLoop] at hc
    by_cases h1 : maxChunkSize < getFileSize file
    · rw [if_pos h1] at hc
      have hz : (0 : Nat) = calculateTotalSize ([] : FileMap) := rfl
      rw [hz] at hc
      refine ih _ [] ?_ (by simp [calculateTotalSize]) c hc
      intro c' hc'
      rcases List.mem_append.mp hc' with h' | h'
      · by_cases h2 : cur = []
        · rw [if_pos h2] at h'
          exact hchunks c' h'
        · rw [if_neg h2] at h'
          rcases List.mem_append.mp h' with h'' | h''
          · exact hchunks c' h''
          · simp only [List.mem_singleton] at h''
            exact h'' ▸ Or.inl hcur
      · simp only [List.mem_singleton] at h'
        subst h'
        exact Or.inr ⟨(filePath, file), rfl, h1⟩
    · rw [if_neg h1] at hc
      by_cases h2 : maxChunkSize < calculateTotalSize cur + getFileSize file ∧ cur ≠ []
      · rw [if_pos h2] at hc
        have hsz : getFileSize file = calculateTotalSize [(filePath, file)] := by
          simp [calculateTotalSize]
        rw [hsz] at hc
        refine ih _ [(filePath, file)] ?_ ?_ c hc
        · intro c' hc'
          rcases List.mem_append.mp hc' with h' | h'
          · exact hchunks c' h'
          · simp only [List.mem_singleton] at h'
            exact h' ▸ Or.inl hcur
        · rw [← hsz]; omega
      · rw [if_neg h2] at hc
        have hsz : calculateTotalSize cur + getFileSize file
            = calculateTotalSize (cur ++ [(filePath, file)]) := by
          simp [calculateTotalSize_append, calculateTotalSize]
        rw [hsz] at hc
        refine ih chunks _ hchunks ?_ c hc
        rw [← hsz]
        by_cases h3 : cur = []
        · have hzero : calculateTotalSize cur = 0 := by
            rw [h3]; rfl
          omega
        · have : ¬ maxChunkSize < calculateTotalSize cur + getFileSize file := by
            intro hlt
            exact h2 ⟨hlt, h3⟩
          omega

theorem chunkFiles_flatten_perm (files : FileMap) (maxChunkSize : Nat) :
    ((chunkFiles files maxChunkSize).flatten).Perm files := by
  rw [chunkFiles]
  rw [chunkFilesLoop_flatten]
  simpa using List.mergeSort_perm files _

theorem count_one_of_flatten_count_one (kv : String × FileEntry) :
    ∀ (chunks : List FileMap),
      chunks.flatten.countP (fun x => decide (x = kv)) = 1 →
      chunks.countP (fun c => decide (kv ∈ c)) = 1 := by
  intro chunks
  induction chunks with
  | nil => intro h; simp at h
  | cons c cs ih =>
    intro h
    rw [List.flatten_cons, List.countP_append] at h
    by_cases hc : kv ∈ c
    · have hpos : 0 < c.countP (fun x => decide (x = kv)) :=
        List.countP_pos_iff.mpr ⟨kv, hc, by simp⟩
      have hcs : cs.flatten.countP (fun x => decide (x = kv)) = 0 := by omega
      rw [List.countP_eq_zero] at hcs
      rw [List.countP_cons]
      have hrest : cs.countP (fun c' => decide (kv ∈ c')) = 0 := by
        rw [List.countP_eq_zero]
        intro c' hc' hmem
        exact absurd (by simp : decide (kv = kv) = true)
          (by simpa using hcs kv (List.mem_flatten_of_mem hc' (of_decide_eq_true hmem)))
      simp [hrest, hc]
    · have hzero : c.countP (fun x => decide (x = kv)) = 0 := by
        rw [List.countP_eq_zero]
        intro x hx hxeq
        exact hc (of_decide_eq_true hxeq ▸ hx)
      rw [List.countP_cons]
      have := ih (by omega)
      simp [this, hc]

/-- Claim C1: `chunkFiles` partitions its input file map — the concatenation
of the chunks is a permutation of the input (no file omitted or duplicated,
entries preserved), every chunk's aggregate size is at most `maxChunkSize`
unless it is a single file exceeding the maximum on its own, and (given
unique keys) every input pair lands in exactly one chunk. -/
theorem chunkFiles_partitions (files : FileMap) (maxChunkSize : Nat) :
    ((chunkFiles files maxChunkSize).flatten).Perm files
    ∧ (∀ c ∈ chunkFiles files maxChunkSize, ChunkOk maxChunkSize c)
    ∧ ((files.map Prod.fst).Nodup →
        ∀ kv ∈ files,
          (chunkFiles files maxChunkSize).countP (fun c => decide (kv ∈ c)) = 1) := by
  refine ⟨chunkFiles_flatten_perm files maxChunkSize, ?_, ?_⟩
  · intro c hc
    rw [chunkFiles] at hc
    have hz : (0 : Nat) = calculateTotalSize ([] : FileMap) := rfl
    rw [hz] at hc
    exact chunkFilesLoop_ok maxChunkSize _ [] [] (by simp) (by simp [calculateTotalSize]) c hc
  · intro hnodup kv hkv
    have hfiles_nodup : files.Nodup := List.Nodup.of_map Prod.fst hnodup
    have hcount : files.countP (fun x => decide (x = kv)) = 1 :=
      List.count_eq_one_of_mem hfiles_nodup hkv
    have hflat :=
      ((chunkFiles_flatten_perm files maxChunkSize).countP_eq (fun x => decide (x = kv))).trans hcount
    exact count_one_of_flatten_count_one kv _ hflat

/-- Tiny concrete file map used to witness hypotheses of the claim
theorems: three text files of sizes 2, 1 and 3 bytes. -/
def demoFiles : FileMap :=
  [("a", FileEntry.utf8 "xx"), ("b", FileEntry.utf8 "y"), ("c", FileEntry.utf8 "zzz")]

/-- Witness for C1: the hypotheses of `chunkFiles_partitions` hold at a
concrete file map, and the pair `("a", "xx")` lands in exactly one chunk. -/
theorem chunkFiles_partitions_witness :
    (chunkFiles demoFiles 3).countP (fun c => decide (("a", FileEntry.utf8 "xx") ∈ c)) = 1 :=
  (chunkFiles_partitions demoFiles 3).2.2 (by decide) ("a", FileEntry.utf8 "xx") (by decide)

/-! ## Exclusion patterns and binary detection

The regex literals of the source are translated pattern by pattern into
decidable tests over the strings' character lists (structural recursion, so
concrete instances evaluate inside the kernel). -/

/-- Test for an unanchored regex literal: `pat` occurs somewhere in the
list. -/
def strHasInfixCL (pat : List Char) : List Char → Bool
  | [] => pat.isEmpty
  | c :: rest => pat.isPrefixOf (c :: rest) || strHasInfixCL pat rest

/-- JS `String.prototype.split` on a one-character separator. -/
def splitOnChar (sep : Char) : List Char → List (List Char)
  | [] => [[]]
  | c :: rest =>
    match splitOnChar sep rest with
    | [] => [[]]
    | group :: groups =>
      if c = sep then [] :: group :: groups else (c :: group) :: groups

/-- The final path component (`filePath.split('/').pop() || ''`, also Node's
`path.basename` for the slash-free names it is applied to here). -/
def lastComponentCL (cs : List Char) : List Char :=
  (splitOnChar '/' cs).getLastD []

/-- The directory patterns of the form `(^|\/)NAME\/`. -/
def dirPat (d : List Char) (s : List Char) : Bool :=
  (d ++ ['/']).isPrefixOf s || strHasInfixCL ('/' :: (d ++ ['/'])) s

/-- The `EXCLUDE_PATTERNS` regex array, pattern by pattern (a trailing `$`
anchor becomes a suffix test, `(^|\/)NAME\/` the directory test). -/
def EXCLUDE_PATTERNS : List (List Char → Bool) :=
  [ fun s => s == ".git".toList
  , dirPat ".git".toList
  , dirPat "node_modules".toList
  , dirPat ".next".toList
  , dirPat "dist".toList
  , dirPat "build".toList
  , dirPat "out".toList
  , dirPat ".output".toList
  , dirPat ".svelte-kit".toList
  , dirPat ".vercel".toList
  , dirPat ".turbo".toList
  , dirPat ".cache".toList
  , dirPat ".parcel-cache".toList
  , dirPat ".vite".toList
  , dirPat ".nuxt".toList
  , dirPat ".expo".toList
  , fun s => "package-lock.json".toList.isSuffixOf s
  , fun s => "yarn.lock".toList.isSuffixOf s
  , fun s => "pnpm-lock.yaml".toList.isSuffixOf s
  , fun s => "bun.lockb".toList.isSuffixOf s
  , fun s => ".DS_Store".toList.isSuffixOf s
  , fun s => ".log".toList.isSuffixOf s
  , fun s => "Thumbs.db".toList.isSuffixOf s
  , dirPat "coverage".toList
  , dirPat ".nyc_output".toList ]

/-- The `ENV_PATTERNS` regex array `[/^\.env/, /\.env\./]`, applied to the
file name. -/
def ENV_PATTERNS : List (List Char → Bool) :=
  [ fun n => ".env".toList.isPrefixOf n
  , strHasInfixCL ".env.".toList ]

/-- Embedding of `shouldExclude`: some exclusion pattern matches the path,
or some env pattern matches the final path component. -/
def shouldExclude (filePath : String) : Bool :=
  let cs := filePath.toList
  if EXCLUDE_PATTERNS.any (fun pat => pat cs) then true
  else if ENV_PATTERNS.any (fun pat => pat (lastComponentCL cs)) then true
  else false

/-- The `BINARY_EXTENSIONS` array (as character lists). -/
def BINARY_EXTENSIONS : List (List Char) :=
  [ ".png", ".jpg", ".jpeg", ".gif", ".webp", ".ico", ".svg", ".bmp", ".tiff"
  , ".avif", ".heic", ".heif"
  , ".woff", ".woff2", ".ttf", ".eot", ".otf"
  , ".mp3", ".mp4", ".webm", ".ogg", ".wav", ".m4a", ".flac", ".avi", ".mov", ".mkv"
  , ".pdf", ".doc", ".docx", ".xls", ".xlsx", ".ppt", ".pptx"
  , ".zip", ".tar", ".gz", ".bz2", ".7z", ".rar"
  , ".exe", ".dll", ".so", ".dylib", ".bin", ".dat", ".db", ".sqlite", ".sqlite3", ".wasm"
  , ".lockb" ].map String.toList

/-- Suffix of a character list starting at its last `'.'`, if any. -/
def lastDotSuffix : List Char → Option (List Char)
  | [] => none
  | c :: rest =>
    match lastDotSuffix rest with
    | some s => some s
    | none => if c = '.' then some (c :: rest) else none

/-- Model of Node's `path.extname` (external library): the substring of the
last path component from its last `'.'`, where a dot in leading position
does not count and the component `".."` has no extension. -/
def extnameCL (filename : List Char) : List Char :=
  let base := lastComponentCL filename
  if base = ['.', '.'] then []
  else
    match base with
    | [] => []
    | _ :: rest =>
      match lastDotSuffix rest with
      | none => []
      | some s => s

/-- ASCII lower-casing of one character (the extension allow-list is pure
ASCII, so JS `toLowerCase` agrees with ASCII lowering on every comparison
that can succeed). -/
def charToLowerAscii (c : Char) : Char :=
  if 'A' ≤ c ∧ c ≤ 'Z' then Char.ofNat (c.toNat + 32) else c

/-- Embedding of `isBinaryFile`: lower-cased extension is on the allow-list. -/
def isBinaryFile (filename : String) : Bool :=
  BINARY_EXTENSIONS.contains ((extnameCL filename.toList).map charToLowerAscii)

/-- The per-byte test `byte < 32 && byte !== 9 && byte !== 10 && byte !== 13`. -/
def isNonPrintable (byte : Nat) : Bool :=
  decide (byte < 32) && !(byte == 9) && !(byte == 10) && !(byte == 13)

/-- The scanning loop of `containsBinaryContent`: `none` when a null byte is
hit (the early `return true`), otherwise the final non-printable count. -/
def containsBinaryLoop : List Nat → Nat → Option Nat
  | [], nonPrintable => some nonPrintable
  | byte :: rest, nonPrintable =>
    if byte = 0 then none
    else containsBinaryLoop rest (if isNonPrintable byte then nonPrintable + 1 else nonPrintable)

/-- Embedding of `containsBinaryContent`: sample the first 8192 bytes; binary
on any null byte, or when non-printables exceed 10% of the sample. The JS
float comparison `nonPrintable / sampleSize > 0.1` is exact here: with the
sample bounded by 8192 the rational `np/ss` is never within double-rounding
distance of `0.1` except at equality, where IEEE division also lands exactly
on the double nearest `0.1`, so the test equals `10*np > ss`; the JS `0/0`
(`NaN`) case for an empty buffer is also `false` on both sides. -/
def containsBinaryContent (buffer : List Nat) : Bool :=
  let sample := buffer.take 8192
  match containsBinaryLoop sample 0 with
  | none => true
  | some nonPrintable => decide (sample.length < 10 * nonPrintable)

/-- The combined per-file classification used by both readers:
`isBinaryByExt || (!isBinaryByExt && containsBinaryContent buffer)`. -/
def treatAsBinary (filename : String) (buffer : List Nat) : Bool :=
  let isBinaryByExt := isBinaryFile filename
  let isBinaryByContent := !isBinaryByExt && containsBinaryContent buffer
  isBinaryByExt || isBinaryByContent

/-- Build the `FileMap` entry for one file: binary files get the base64
encoder applied with the explicit encoding tag, text files the UTF-8
decoder. The two transcoders (Node `Buffer.toString`) are oracle
parameters. -/
def readEntry (utf8Dec b64Enc : List Nat → String) (filename : String) (buffer : List Nat) : FileEntry :=
  if treatAsBinary filename buffer then FileEntry.base64 (b64Enc buffer)
  else FileEntry.utf8 (utf8Dec buffer)

/-! ## Reading project files -/

/-- A filesystem subtree: regular files carry their byte content, directories
their listing in `readdirSync` order. -/
inductive FSNode where
  | file (buffer : List Nat)
  | dir (entries : List (String × FSNode))

/-- Relative-path accumulation of the recursive walk
(`path.relative(rootDir, path.join(dir, entry))`). -/
def joinRel (pre name : String) : String :=
  if pre = "" then name else pre ++ "/" ++ name

/-- Embedding of the `walkDir` recursion inside `readProjectFiles`: skip
excluded relative paths, recurse into directories, classify and read plain
files. -/
def walkEntries (utf8Dec b64Enc : List Nat → String) :
    List (String × FSNode) → String → FileMap
  | [], _ => []
  | (entry, node) :: rest, pre =>
    let relativePath := joinRel pre entry
    (if shouldExclude relativePath then []
     else
       match node with
       | FSNode.dir sub => walkEntries utf8Dec b64Enc sub relativePath
       | FSNode.file buffer => [(relativePath, readEntry utf8Dec b64Enc entry buffer)])
    ++ walkEntries utf8Dec b64Enc rest pre

/-- Embedding of `readProjectFiles` on the root directory's listing. -/
def readProjectFiles (utf8Dec b64Enc : List Nat → String)
    (rootEntries : List (String × FSNode)) : FileMap :=
  walkEntries utf8Dec b64Enc rootEntries ""

/-- The `ESSENTIAL_CONFIG_FILES` array. -/
def ESSENTIAL_CONFIG_FILES : List String :=
  [ "package.json", "tsconfig.json", "jsconfig.json"
  , "vite.config.ts", "vite.config.js", "vite.config.mjs"
  , "next.config.js", "next.config.mjs", "next.config.ts"
  , "tailwind.config.js", "tailwind.config.ts", "tailwind.config.mjs"
  , "postcss.config.js", "postcss.config.mjs", "postcss.config.cjs"
  , ".prettierrc", ".prettierrc.json", ".eslintrc.json", "eslint.config.js"
  , "index.html" ]

/-- JS `Set.add`: append unless already present (insertion order kept). -/
def insertUnique (l : List String) (x : String) : List String :=
  if x ∈ l then l else l ++ [x]

/-- JS `new Set(xs)` as an insertion-ordered deduplicated list. -/
def jsSetOf (xs : List String) : List String :=
  xs.foldl insertUnique []

/-- What the filesystem shows at one path for `readSpecificFiles`: a regular
file with bytes, or something that exists but is not a regular file. -/
inductive DiskNode where
  | file (buffer : List Nat)
  | other
deriving DecidableEq

/-- The read loop of `readSpecificFiles` over the assembled path set:
excluded paths are skipped, non-files are skipped, unreadable paths are
counted and skipped, files are classified by basename and content. -/
def readPathsLoop (utf8Dec b64Enc : List Nat → String)
    (disk : String → Option DiskNode) : List String → FileMap
  | [] => []
  | relativePath :: rest =>
    (if shouldExclude relativePath then []
     else
       match disk relativePath with
       | some (DiskNode.file buffer) =>
         [(relativePath,
            readEntry utf8Dec b64Enc (String.mk (lastComponentCL relativePath.toList)) buffer)]
       | some DiskNode.other => []
       | none => [])
    ++ readPathsLoop utf8Dec b64Enc disk rest

/-- Embedding of `readSpecificFiles`: build the path set from the given list
plus the essential config files that exist on disk, then read. -/
def readSpecificFiles (utf8Dec b64Enc : List Nat → String)
    (disk : String → Option DiskNode) (filePaths : List String)
    (includeEssentials : Bool) : FileMap :=
  let paths0 := jsSetOf filePaths
  let pathsToRead :=
    if includeEssentials then
      ESSENTIAL_CONFIG_FILES.foldl
        (fun acc configFile =>
          if (disk configFile).isSome then insertUnique acc configFile else acc)
        paths0
    else paths0
  readPathsLoop utf8Dec b64Enc disk pathsToRead

theorem walkEntries_not_excluded (utf8Dec b64Enc : List Nat → String) :
    ∀ (l : List (String × FSNode)) (pre : String),
      ∀ kv ∈ walkEntries utf8Dec b64Enc l pre, shouldExclude kv.1 = false := by
  intro l pre
  induction l, pre using walkEntries.induct utf8Dec b64Enc with
  | case1 pre => intro kv hkv; simp [walkEntries] at hkv
  | case2 entry node rest pre relativePath ihnode ihrest =>
    intro kv hkv
    cases node with
    | dir sub =>
      rw [walkEntries.eq_def] at hkv
      simp only at hkv
      by_cases hexcl : shouldExclude (joinRel pre entry) = true
      · rw [if_pos hexcl] at hkv
        simp only [List.nil_append] at hkv
        exact ihrest kv hkv
      · rw [if_neg hexcl] at hkv
        rcases List.mem_append.mp hkv with h | h
        · exact ihnode kv h
        · exact ihrest kv h
    | file buffer =>
      rw [walkEntries.eq_def] at hkv
      simp only at hkv
      by_cases hexcl : shouldExclude (joinRel pre entry) = true
      · rw [if_pos hexcl] at hkv
        simp only [List.nil_append] at hkv
        exact ihrest kv hkv
      · rw [if_neg hexcl] at hkv
        rcases List.mem_append.mp hkv with h | h
        · simp only [List.mem_singleton] at h
          subst h
          simpa using Bool.of_not_eq_true hexcl
        · exact ihrest kv h

theorem readPathsLoop_not_excluded (utf8Dec b64Enc : List Nat → String)
    (disk : String → Option DiskNode) :
    ∀ (paths : List String),
      ∀ kv ∈ readPathsLoop utf8Dec b64Enc disk paths, shouldExclude kv.1 = false := by
  intro paths
  induction paths with
  | nil => intro kv hkv; simp [readPathsLoop] at hkv
  | cons relativePath rest ih =>
    intro kv hkv
    rw [readPathsLoop] at hkv
    rcases List.mem_append.mp hkv with h | h
    · by_cases hexcl : shouldExclude relativePath = true
      · rw [if_pos hexcl] at h; simp at h
      · rw [if_neg hexcl] at h
        match hdisk : disk relativePath with
        | some (DiskNode.file buffer) =>
          rw [hdisk] at h
          simp only [List.mem_singleton] at h
          subst h
          simpa using Bool.of_not_eq_true hexcl
        | some DiskNode.other => rw [hdisk] at h; simp at h
        | none => rw [hdisk] at h; simp at h
    · exact ih kv h

theorem mem_insertUnique (l : List String) (x y : String) :
    x ∈ insertUnique l y ↔ x ∈ l ∨ x = y := by
  rw [insertUnique]
  by_cases h : y ∈ l
  · rw [if_pos h]
    constructor
    · exact Or.inl
    · rintro (hx | rfl)
      · exact hx
      · exact h
  · rw [if_neg h]
    simp

theorem essentialsFold_mem_mono (disk : String → Option DiskNode) :
    ∀ (cfgs : List String) (acc : List String) (x : String), x ∈ acc →
      x ∈ cfgs.foldl
        (fun acc' configFile =>
          if (disk configFile).isSome then insertUnique acc' configFile else acc')
        acc := by
  intro cfgs
  induction cfgs with
  | nil => intro acc x hx; simpa using hx
  | cons c cs ih =>
    intro acc x hx
    simp only [List.foldl_cons]
    by_cases hc : (disk c).isSome
    · rw [if_pos hc]
      exact ih _ x ((mem_insertUnique acc x c).mpr (Or.inl hx))
    · rw [if_neg hc]
      exact ih _ x hx

theorem essentialsFold_mem_of_exists (disk : String → Option DiskNode) :
    ∀ (cfgs : List String) (acc : List String) (x : String),
      x ∈ cfgs → (disk x).isSome →
      x ∈ cfgs.foldl
        (fun acc' configFile =>
          if (disk configFile).isSome then insertUnique acc' configFile else acc')
        acc := by
  intro cfgs
  induction cfgs with
  | nil => intro acc x hx; simp at hx
  | cons c cs ih =>
    intro acc x hx hsome
    simp only [List.foldl_cons]
    rcases List.mem_cons.mp hx with rfl | hx'
    · rw [if_pos hsome]
      exact essentialsFold_mem_mono disk cs _ x ((mem_insertUnique acc x x).mpr (Or.inr rfl))
    · by_cases hc : (disk c).isSome
      · rw [if_pos hc]; exact ih _ x hx' hsome
      · rw [if_neg hc]; exact ih _ x hx' hsome

theorem readPathsLoop_key_mem (utf8Dec b64Enc : List Nat → String)
    (disk : String → Option DiskNode) :
    ∀ (paths : List String) (rel : String) (buffer : List Nat),
      rel ∈ paths → shouldExclude rel = false →
      disk rel = some (DiskNode.file buffer) →
      rel ∈ (readPathsLoop utf8Dec b64Enc disk paths).map Prod.fst := by
  intro paths
  induction paths with
  | nil => intro rel buffer h; simp at h
  | cons p rest ih =>
    intro rel buffer hmem hexcl hdisk
    rw [readPathsLoop]
    rcases List.mem_cons.mp hmem with rfl | hmem'
    · rw [if_neg (by simp [hexcl]), hdisk]
      simp
    · rcases List.mem_map.mp (ih rel buffer hmem' hexcl hdisk) with ⟨kv, hkv, hfst⟩
      exact List.mem_map.mpr ⟨kv, List.mem_append.mpr (Or.inr hkv), hfst⟩

/-- Claim C3: every key of an assembled file map (full walk or specific
read) has survived exclusion filtering; `.env.production` and `secrets/.env`
are never keys in either mode; and `package.json` is a key of the
`readSpecificFiles` result (essentials included, as the share path calls it)
whenever it is a readable regular file on disk, even when absent from the
requested paths. -/
theorem assembled_keys_survive_exclusion
    (utf8Dec b64Enc : List Nat → String) (rootEntries : List (String × FSNode))
    (disk : String → Option DiskNode) (filePaths : List String)
    (includeEssentials : Bool) (buffer : List Nat) :
    (∀ kv ∈ readProjectFiles utf8Dec b64Enc rootEntries, shouldExclude kv.1 = false)
    ∧ (∀ kv ∈ readSpecificFiles utf8Dec b64Enc disk filePaths includeEssentials,
        shouldExclude kv.1 = false)
    ∧ ".env.production" ∉ (readProjectFiles utf8Dec b64Enc rootEntries).map Prod.fst
    ∧ ".env.production"
        ∉ (readSpecificFiles utf8Dec b64Enc disk filePaths includeEssentials).map Prod.fst
    ∧ "secrets/.env" ∉ (readProjectFiles utf8Dec b64Enc rootEntries).map Prod.fst
    ∧ "secrets/.env"
        ∉ (readSpecificFiles utf8Dec b64Enc disk filePaths includeEssentials).map Prod.fst
    ∧ (disk "package.json" = some (DiskNode.file buffer) →
        "package.json" ∈ (readSpecificFiles utf8Dec b64Enc disk filePaths true).map Prod.fst) := by
  have hall := walkEntries_not_excluded utf8Dec b64Enc rootEntries ""
  have hspec := readPathsLoop_not_excluded utf8Dec b64Enc disk
    (if includeEssentials then
      ESSENTIAL_CONFIG_FILES.foldl
        (fun acc configFile =>
          if (disk configFile).isSome then insertUnique acc configFile else acc)
        (jsSetOf filePaths)
    else jsSetOf filePaths)
  have henv1 : shouldExclude ".env.production" = true := by decide
  have henv2 : shouldExclude "secrets/.env" = true := by decide
  refine ⟨hall, hspec, ?_, ?_, ?_, ?_, ?_⟩
  · intro hmem
    rcases List.mem_map.mp hmem with ⟨kv, hkv, hfst⟩
    have := hall kv hkv
    rw [hfst] at this
    rw [this] at henv1
    exact Bool.false_ne_true henv1
  · intro hmem
    rcases List.mem_map.mp hmem with ⟨kv, hkv, hfst⟩
    have := hspec kv hkv
    rw [hfst] at this
    rw [this] at henv1
    exact Bool.false_ne_true henv1
  · intro hmem
    rcases List.mem_map.mp hmem with ⟨kv, hkv, hfst⟩
    have := hall kv hkv
    rw [hfst] at this
    rw [this] at henv2
    exact Bool.false_ne_true henv2
  · intro hmem
    rcases List.mem_map.mp hmem with ⟨kv, hkv, hfst⟩
    have := hspec kv hkv
    rw [hfst] at this
    rw [this] at henv2
    exact Bool.false_ne_true henv2
  · intro hdisk
    have hin : "package.json" ∈
        ESSENTIAL_CONFIG_FILES.foldl
          (fun acc configFile =>
            if (disk configFile).isSome then insertUnique acc configFile else acc)
          (jsSetOf filePaths) :=
      essentialsFold_mem_of_exists disk ESSENTIAL_CONFIG_FILES (jsSetOf filePaths)
        "package.json" (by decide) (by rw [hdisk]; rfl)
    have hnexcl : shouldExclude "package.json" = false := by decide
    exact readPathsLoop_key_mem utf8Dec b64Enc disk _ "package.json" buffer hin hnexcl hdisk

/-- Witness for C3 at a concrete filesystem: a disk exposing only a readable
`package.json` puts that key in the `readSpecificFiles` result. -/
theorem assembled_keys_survive_exclusion_witness :
    "package.json" ∈ (readSpecificFiles (fun _ => "") (fun _ => "")
      (fun p => if p = "package.json" then some (DiskNode.file [123]) else none)
      [] true).map Prod.fst :=
  (assembled_keys_survive_exclusion (fun _ => "") (fun _ => "") []
      (fun p => if p = "package.json" then some (DiskNode.file [123]) else none)
      [] true [123]).2.2.2.2.2.2 (by decide)

theorem containsBinaryLoop_eq_none_iff :
    ∀ (l : List Nat) (np : Nat), containsBinaryLoop l np = none ↔ 0 ∈ l := by
  intro l
  induction l with
  | nil => intro np; simp [containsBinaryLoop]
  | cons b rest ih =>
    intro np
    rw [containsBinaryLoop]
    by_cases hb : b = 0
    · subst hb; simp
    · rw [if_neg hb]
      rw [ih]
      simp [hb, Ne.symm hb]

theorem containsBinaryLoop_eq_some (l : List Nat) :
    0 ∉ l → ∀ np, containsBinaryLoop l np = some (np + l.countP isNonPrintable) := by
  induction l with
  | nil => intro _ np; simp [containsBinaryLoop]
  | cons b rest ih =>
    intro hnot np
    have hb : b ≠ 0 := fun h => hnot (h ▸ List.mem_cons_self b rest)
    rw [containsBinaryLoop, if_neg hb]
    have hrest : 0 ∉ rest := fun h => hnot (List.mem_cons_of_mem b h)
    rw [ih hrest]
    by_cases hnp : isNonPrintable b = true
    · rw [if_pos hnp, List.countP_cons_of_pos _ _ hnp]
      congr 1
      omega
    · rw [if_neg hnp, List.countP_cons_of_neg _ _ hnp]

/-- The content sniff holds exactly when the 8 KiB sample has a null byte or
its non-printable count exceeds 10% of the sample length. -/
theorem containsBinaryContent_iff (buffer : List Nat) :
    containsBinaryContent buffer = true ↔
      (0 ∈ buffer.take 8192
        ∨ (buffer.take 8192).length < 10 * ((buffer.take 8192).countP isNonPrintable)) := by
  rw [containsBinaryContent]
  by_cases h : 0 ∈ buffer.take 8192
  · rw [(containsBinaryLoop_eq_none_iff (buffer.take 8192) 0).mpr h]
    simp [h]
  · rw [containsBinaryLoop_eq_some (buffer.take 8192) h 0]
    simp [h]

/-- Concrete 200-byte pure-ASCII buffer (content `'a'` two hundred times). -/
def asciiBuf200 : List Nat := List.replicate 200 97

/-- Concrete 200-byte buffer containing a null byte. -/
def buf200WithNull : List Nat := 65 :: 0 :: List.replicate 198 66

set_option maxRecDepth 100000 in
/-- Claim C6: binary classification is two-layered. A file whose lower-cased
extension is on the allow-list is classified binary regardless of content;
for the rest, the content sniff over at most the first 8192 bytes fires
exactly when a sampled byte is null or the count of bytes below 32 other
than 9, 10 and 13 exceeds 10% of the sample. Concretely, a 200-byte buffer
with a null byte is binary under the unrecognized extension `.xyz`, and a
200-byte pure-ASCII buffer named `data.bin` is binary by extension alone. -/
theorem binary_classification (name : String) (buffer : List Nat) :
    (isBinaryFile name = true → treatAsBinary name buffer = true)
    ∧ (containsBinaryContent buffer = true ↔
        (0 ∈ buffer.take 8192
          ∨ (buffer.take 8192).length < 10 * ((buffer.take 8192).countP isNonPrintable)))
    ∧ treatAsBinary "photo.xyz" buf200WithNull = true
    ∧ isBinaryFile "photo.xyz" = false
    ∧ treatAsBinary "data.bin" asciiBuf200 = true
    ∧ isBinaryFile "data.bin" = true
    ∧ containsBinaryContent asciiBuf200 = false := by
  refine ⟨?_, containsBinaryContent_iff buffer, by decide, by decide, by decide, by decide, by decide⟩
  intro h
  rw [treatAsBinary]
  simp [h]

set_option maxRecDepth 100000 in
/-- Witness for C6: the extension-layer hypothesis discharged at `data.bin`
with pure-ASCII content. -/
theorem binary_classification_witness :
    treatAsBinary "data.bin" asciiBuf200 = true :=
  (binary_classification "data.bin" asciiBuf200).1 (by decide)

/-! ## Dependency analyzer (`src/plugin/local-mcp/analyzers/dependency-analyzer.ts`)

The esbuild bundler drives the resolve/load callbacks; which local files they
discover is external behaviour, abstracted as the oracle list `extra` (in
callback order, duplicates allowed). The `resolvedFiles` JS `Set` is seeded
with the entry points before the build runs. -/

/-- Embedding of the `localFiles` component of `analyzeDependencies`:
`resolvedFiles` seeded with the entry points, extended by the callbacks,
then `Array.from(resolvedFiles).sort()` (JS default sort: lexicographic
ascending). -/
def analyzeDependenciesLocalFiles (entryPoints extra : List String) : List String :=
  (jsSetOf (entryPoints ++ extra)).mergeSort (fun a b => decide (a ≤ b))

theorem mem_foldl_insertUnique :
    ∀ (xs acc : List String) (x : String),
      x ∈ xs.foldl insertUnique acc ↔ x ∈ acc ∨ x ∈ xs := by
  intro xs
  induction xs with
  | nil => intro acc x; simp
  | cons y ys ih =>
    intro acc x
    simp only [List.foldl_cons]
    rw [ih]
    rw [mem_insertUnique]
    simp only [List.mem_cons]
    tauto

theorem nodup_foldl_insertUnique :
    ∀ (xs acc : List String), acc.Nodup → (xs.foldl insertUnique acc).Nodup := by
  intro xs
  induction xs with
  | nil => intro acc h; simpa using h
  | cons y ys ih =>
    intro acc h
    simp only [List.foldl_cons]
    refine ih _ ?_
    rw [insertUnique]
    by_cases hy : y ∈ acc
    · rw [if_pos hy]; exact h
    · rw [if_neg hy]
      simp [List.nodup_append, h, hy]

theorem mem_jsSetOf (xs : List String) (x : String) : x ∈ jsSetOf xs ↔ x ∈ xs := by
  rw [jsSetOf, mem_foldl_insertUnique]
  simp

theorem nodup_jsSetOf (xs : List String) : (jsSetOf xs).Nodup :=
  nodup_foldl_insertUnique xs [] List.nodup_nil

/-- Claim C4: the `localFiles` component is sorted lexicographically, free of
duplicates, and contains every entry point, whatever the project root, alias
map and callback-discovered files. -/
theorem analyzeDependencies_localFiles_spec (entryPoints extra : List String) :
    (analyzeDependenciesLocalFiles entryPoints extra).Sorted (· ≤ ·)
    ∧ (analyzeDependenciesLocalFiles entryPoints extra).Nodup
    ∧ ∀ e ∈ entryPoints, e ∈ analyzeDependenciesLocalFiles entryPoints extra := by
  refine ⟨?_, ?_, ?_⟩
  · have h := List.sorted_mergeSort
      (fun a b c (h1 : decide (a ≤ b)) (h2 : decide (b ≤ c)) =>
        decide_eq_true (le_trans (of_decide_eq_true h1) (of_decide_eq_true h2)))
      (fun a b => by
        rcases le_total a b with h | h
        · simp [h]
        · simp [h])
      (jsSetOf (entryPoints ++ extra))
    exact h.imp (fun hab => of_decide_eq_true hab)
  · rw [analyzeDependenciesLocalFiles]
    exact ((List.mergeSort_perm _ _).nodup_iff).mpr (nodup_jsSetOf _)
  · intro e he
    rw [analyzeDependenciesLocalFiles]
    rw [List.mem_mergeSort, mem_jsSetOf]
    exact List.mem_append.mpr (Or.inl he)

/-- Witness for C4: the entry point `"a"` is a member at a concrete input. -/
theorem analyzeDependencies_localFiles_spec_witness :
    "a" ∈ analyzeDependenciesLocalFiles ["b", "a"] ["b", "c"] :=
  (analyzeDependencies_localFiles_spec ["b", "a"] ["b", "c"]).2.2 "a" (by decide)

/-- The change type of a `ChangedFile`. -/
inductive ChangeType where
  | added
  | modified
  | deleted
deriving DecidableEq

/-- A changed-file record as produced by diff parsing or from an explicit
`changedFiles` argument (`isUIRelevant` computed against the UI patterns at
construction). -/
structure ChangedFile where
  path : String
  changeType : ChangeType
  isUIRelevant : Bool
deriving DecidableEq

/-- An npm package record with its accumulated import specifiers. -/
structure NpmPackage where
  name : String
  specifiers : List String
deriving DecidableEq

/-- A workspace package record. -/
structure WorkspacePackage where
  name : String
  resolvedPath : Option String
  importedFiles : List String
deriving DecidableEq

/-- The `dependencies` component of an analysis result. -/
structure Dependencies where
  localFiles : List String
  npmPackages : List NpmPackage
  workspacePackages : List WorkspacePackage
deriving DecidableEq

/-- The `metadata` component of an analysis result (`analysisTimeMs`, pure
wall-clock bookkeeping, is omitted). -/
structure AnalysisMetadata where
  projectRoot : String
  entryPoints : List String
  pathAliases : List (String × String)
deriving DecidableEq

/-- A `DependencyAnalysisResult`. -/
structure DependencyAnalysisResult where
  changedFiles : List ChangedFile
  dependencies : Dependencies
  metadata : AnalysisMetadata
deriving DecidableEq

/-- Embedding of `analyzeProjectDependencies` downstream of changed-file
acquisition: `files` is the assembled changed-file list (from the explicit
argument or from parsing the git diff — both upstream, external inputs) and
`resolve` abstracts the esbuild-backed `analyzeDependencies`. Entry points
are the non-deleted UI-relevant paths; without any, the empty result is
returned before any resolution. -/
def analyzeProjectDependencies (projectRoot : String)
    (pathAliases : List (String × String)) (files : List ChangedFile)
    (resolve : List String → Dependencies) : DependencyAnalysisResult :=
  let entryPoints :=
    (files.filter (fun f => f.isUIRelevant && !(f.changeType == ChangeType.deleted))).map
      (fun f => f.path)
  if entryPoints.length = 0 then
    { changedFiles := files
      dependencies := { localFiles := [], npmPackages := [], workspacePackages := [] }
      metadata := { projectRoot := projectRoot, entryPoints := [], pathAliases := pathAliases } }
  else
    { changedFiles := files
      dependencies := resolve entryPoints
      metadata := { projectRoot := projectRoot, entryPoints := entryPoints, pathAliases := pathAliases } }

/-- Claim C9: when the changed-file set has no UI-relevant non-deleted file,
the analysis returns the empty dependencies and empty entry-point metadata
and never consults the resolver (the result is the same for any two
resolvers); the function is total, so this is a normal result, not an
error. -/
theorem analyzeProjectDependencies_shortCircuit (projectRoot : String)
    (pathAliases : List (String × String)) (files : List ChangedFile)
    (resolve resolve' : List String → Dependencies)
    (h : ∀ f ∈ files, (f.isUIRelevant && !(f.changeType == ChangeType.deleted)) = false) :
    (analyzeProjectDependencies projectRoot pathAliases files resolve).dependencies
      = { localFiles := [], npmPackages := [], workspacePackages := [] }
    ∧ (analyzeProjectDependencies projectRoot pathAliases files resolve).metadata.entryPoints = []
    ∧ (analyzeProjectDependencies projectRoot pathAliases files resolve).changedFiles = files
    ∧ analyzeProjectDependencies projectRoot pathAliases files resolve
      = analyzeProjectDependencies projectRoot pathAliases files resolve' := by
  have hfilter : files.filter (fun f => f.isUIRelevant && !(f.changeType == ChangeType.deleted)) = [] :=
    List.filter_eq_nil_iff.mpr (fun f hf => by simp [h f hf])
  rw [analyzeProjectDependencies, analyzeProjectDependencies]
  simp only [hfilter, List.map_nil, List.length_nil, if_pos rfl]
  exact ⟨rfl, rfl, rfl, rfl⟩

/-- Concrete resolver returning a local file, for the C9 witness. -/
def demoResolveA : List String → Dependencies :=
  fun _ => { localFiles := ["x.ts"], npmPackages := [], workspacePackages := [] }

/-- Concrete resolver returning an npm package, for the C9 witness. -/
def demoResolveB : List String → Dependencies :=
  fun _ => { localFiles := [], npmPackages := [{ name := "react", specifiers := ["default"] }], workspacePackages := [] }

/-- Witness for C9: a changed set with only a non-UI file short-circuits, so
two different resolvers give the same result. -/
theorem analyzeProjectDependencies_shortCircuit_witness :
    analyzeProjectDependencies "/repo" []
        [{ path := "README.md", changeType := ChangeType.modified, isUIRelevant := false }]
        demoResolveA
      = analyzeProjectDependencies "/repo" []
        [{ path := "README.md", changeType := ChangeType.modified, isUIRelevant := false }]
        demoResolveB :=
  (analyzeProjectDependencies_shortCircuit "/repo" []
    [{ path := "README.md", changeType := ChangeType.modified, isUIRelevant := false }]
    demoResolveA demoResolveB (by decide)).2.2.2

/-! ## Streaming progress relay (`src/local-mcp/index.ts`: `callShareWithSSE`
and the finalize stream of `callChunkedShare`)

The network stream is modelled as the list of complete lines it delivers
(the code's read buffering concatenates reads and splits on newlines, so the
line sequence is independent of read boundaries). `JSON.parse` is the oracle
`parse`: `none` models a line whose JSON throws (a `SyntaxError`, whose
message is never the literal `"Share failed"`), `some` the parsed object
restricted to the fields the relay reads. The two near-identical loops
differ only in the progress remapping, abstracted as `remap` and
instantiated per caller. -/

/-- The fields of a parsed SSE data payload that the relay reads. -/
structure EventData where
  percentage : Option Int := none
  step : Option String := none
  message : Option String := none
  inflightUrl : Option String := none
  versionId : Option String := none
  projectId : Option String := none
  sandboxId : Option String := none
  sandboxUrl : Option String := none
  previewUrl : Option String := none
  ngrokUrl : Option String := none
  diffSummary : Option String := none

/-- The object returned on a `complete` event. -/
structure ShareResult where
  inflightUrl : Option String
  versionId : Option String
  projectId : Option String
  sandboxId : Option String
  sandboxUrl : Option String
  previewUrl : Option String
  ngrokUrl : Option String
  diffSummary : Option String
deriving DecidableEq

/-- The result object built from a `complete` event's data
(`previewUrl: data.previewUrl || data.sandboxUrl`). -/
def mkShareResult (data : EventData) : ShareResult :=
  { inflightUrl := data.inflightUrl
    versionId := data.versionId
    projectId := data.projectId
    sandboxId := data.sandboxId
    sandboxUrl := data.sandboxUrl
    previewUrl := jsOrOpt data.previewUrl data.sandboxUrl
    ngrokUrl := data.ngrokUrl
    diffSummary := data.diffSummary }

/-- How a relay run terminates: a parsed `complete` event's result, an error
propagated out of the loop, or end of stream. -/
inductive RelayOutcome where
  | complete (result : ShareResult)
  | thrown (msg : String)
  | ended
deriving DecidableEq

/-- A relay run: the progress and error callback invocations in order, and
the terminal outcome. -/
structure RelayResult where
  progressCalls : List (Int × String)
  errorCalls : List String
  outcome : RelayOutcome
deriving DecidableEq

/-- JS `line.startsWith(pre)` (structural, over character lists). -/
def lineStartsWith (pre line : String) : Bool :=
  pre.toList.isPrefixOf line.toList

/-- JS `line.slice(n)` for the ASCII prefixes used here. -/
def lineDrop (n : Nat) (line : String) : String :=
  String.mk (line.toList.drop n)

/-- An ASCII whitespace character (the event names trimmed here contain at
most these). -/
def isWhitespaceChar (c : Char) : Bool :=
  c == ' ' || c == '\t' || c == '\n' || c == '\r'

/-- JS `String.prototype.trim` on both ends. -/
def trimStr (s : String) : String :=
  String.mk (((s.toList.dropWhile isWhitespaceChar).reverse.dropWhile isWhitespaceChar).reverse)

/-- The SSE processing loop shared verbatim by `callShareWithSSE` and the
finalize phase of `callChunkedShare` (which differ only in the progress
remapping `remap`): track `currentEvent` across lines, dispatch each
`data: ` line inside the try/catch, where the catch re-raises an error only
when its message is exactly `"Share failed"` and otherwise continues
(skipping the `currentEvent = ""` reset). -/
def runRelay (remap : Int → Int) (parse : String → Option EventData) :
    List String → String → List (Int × String) → List String → RelayResult
  | [], _, progressCalls, errorCalls =>
      { progressCalls := progressCalls, errorCalls := errorCalls, outcome := RelayOutcome.ended }
  | line :: rest, currentEvent, progressCalls, errorCalls =>
    if lineStartsWith "event: " line then
      runRelay remap parse rest (trimStr (lineDrop 7 line)) progressCalls errorCalls
    else if lineStartsWith "data: " line then
      match parse (lineDrop 6 line) with
      | none =>
          runRelay remap parse rest currentEvent progressCalls errorCalls
      | some data =>
          if currentEvent == "progress" || (currentEvent == "" && optTruthy data.step) then
            runRelay remap parse rest ""
              (progressCalls ++ [(remap (jsOrInt data.percentage 0), jsOrStr data.step "Processing...")])
              errorCalls
          else if currentEvent == "complete" then
            { progressCalls := progressCalls, errorCalls := errorCalls
              outcome := RelayOutcome.complete (mkShareResult data) }
          else if currentEvent == "error" then
            if jsOrStr data.message "Share failed" == "Share failed" then
              { progressCalls := progressCalls
                errorCalls := errorCalls ++ [jsOrStr data.message "Share failed"]
                outcome := RelayOutcome.thrown (jsOrStr data.message "Share failed") }
            else
              runRelay remap parse rest currentEvent progressCalls
                (errorCalls ++ [jsOrStr data.message "Share failed"])
          else
            runRelay remap parse rest "" progressCalls errorCalls
    else
      runRelay remap parse rest currentEvent progressCalls errorCalls

/-- The finalize-phase remapping of server percentages,
`45 + Math.floor((serverPct / 100) * 55)` (exact in IEEE doubles for the
integer percentages 0–100, hence the floor division). -/
def chunkedRemap (serverPct : Int) : Int :=
  45 + Int.fdiv (serverPct * 55) 100

/-- The single-shot relay (`callShareWithSSE`): raw percentages. -/
def callShareWithSSEStream (parse : String → Option EventData) (lines : List String) : RelayResult :=
  runRelay (fun pct => pct) parse lines "" [] []

/-- The chunked finalize relay: percentages remapped into 45–100. -/
def callChunkedFinalizeStream (parse : String → Option EventData) (lines : List String) : RelayResult :=
  runRelay chunkedRemap parse lines "" [] []

/-- Map a finished relay run to the promise outcome: completion resolves,
a propagated error rejects, end of stream rejects with the caller's
completion-missing message. -/
def relayOutcomeToResult (endMessage : String) (r : RelayResult) : Except String ShareResult :=
  match r.outcome with
  | RelayOutcome.complete res => Except.ok res
  | RelayOutcome.thrown m => Except.error m
  | RelayOutcome.ended => Except.error endMessage

/-- The overall single-shot share stream outcome. -/
def callShareWithSSE (parse : String → Option EventData) (lines : List String) : Except String ShareResult :=
  relayOutcomeToResult "Share stream ended without completion" (callShareWithSSEStream parse lines)

/-- The overall chunked finalize stream outcome. -/
def callChunkedShareFinalize (parse : String → Option EventData) (lines : List String) : Except String ShareResult :=
  relayOutcomeToResult "Chunked share stream ended without completion" (callChunkedFinalizeStream parse lines)

/-- Per-chunk upload progress `10 + Math.floor((i / totalChunks) * 30)`
(the IEEE double expression agrees with exact arithmetic at the chunk
counts considered here, in particular `totalChunks = 3`). -/
def uploadChunkProgress (i totalChunks : Nat) : Nat :=
  10 + (i * 30) / totalChunks

/-- The upload-phase progress percentages reported for chunks `1..N`. -/
def chunkedUploadProgressPercents (totalChunks : Nat) : List Nat :=
  (List.range totalChunks).map (fun i => uploadChunkProgress i totalChunks)

theorem runRelay_outcome_cases (remap : Int → Int) (parse : String → Option EventData) :
    ∀ (lines : List String) (currentEvent : String)
      (progressCalls : List (Int × String)) (errorCalls : List String),
      (∃ res, (runRelay remap parse lines currentEvent progressCalls errorCalls).outcome
          = RelayOutcome.complete res)
      ∨ (runRelay remap parse lines currentEvent progressCalls errorCalls).outcome
          = RelayOutcome.thrown "Share failed"
      ∨ (runRelay remap parse lines currentEvent progressCalls errorCalls).outcome
          = RelayOutcome.ended := by
  intro lines
  induction lines with
  | nil => intro ce pc ec; right; right; rw [runRelay]
  | cons line rest ih =>
    intro ce pc ec
    rw [runRelay]
    split
    · exact ih _ _ _
    · split
      · split
        · exact ih _ _ _
        · rename_i data heq
          split
          · exact ih _ _ _
          · split
            · exact Or.inl ⟨mkShareResult data, rfl⟩
            · split
              · split
                · rename_i h6
                  right; left
                  rw [eq_of_beq h6]
                · exact ih _ _ _
              · exact ih _ _ _
      · exact ih _ _ _

deriving instance DecidableEq for Except

/-- The JSON text `{"message":"disk full"}` of an error event carrying a
server message. -/
def errJsonDiskFull : String := "\x7b\"message\":\"disk full\"\x7d"

/-- Concrete parse oracle for the disk-full stream: exactly the error
payload parses, to an object whose `message` is `"disk full"`. -/
def parseDiskFull : String → Option EventData :=
  fun payload =>
    if payload = errJsonDiskFull then some { message := some "disk full" } else none

set_option maxRecDepth 100000 in
/-- Claim C2 (code bug), evaluated at the failing stream
`event: error` / `data: {"message":"disk full"}`: the error callback fires
with the server's message, but the error raised afterwards is swallowed by
the catch guarding JSON parse errors (its message differs from
`"Share failed"`), so the relay keeps reading and the operation ends with
the completion-missing failure instead of propagating the server's
message. -/
theorem errorEvent_serverMessage_swallowed :
    callShareWithSSE parseDiskFull ["event: error", "data: " ++ errJsonDiskFull]
      = Except.error "Share stream ended without completion"
    ∧ (callShareWithSSEStream parseDiskFull ["event: error", "data: " ++ errJsonDiskFull]).errorCalls
      = ["disk full"]
    ∧ (callShareWithSSEStream parseDiskFull ["event: error", "data: " ++ errJsonDiskFull]).outcome
      ≠ RelayOutcome.thrown "disk full" := by
  refine ⟨by decide, by decide, by decide⟩

/-- The JSON text `{}` of an error event carrying no message. -/
def errJsonEmpty : String := "\x7b\x7d"

/-- Concrete parse oracle for the message-less error stream. -/
def parseEmptyObj : String → Option EventData :=
  fun payload => if payload = errJsonEmpty then some {} else none

set_option maxRecDepth 100000 in
/-- Counterexample to claim C5 as stated: the stream
`event: error` / `data: {}` closes without a `complete` event ever being
parsed, yet the share operation fails with `"Share failed"` (the error
raised while handling the error event, which propagates because it matches
the catch's guard), not with the completion-missing error. -/
theorem streamEnd_not_always_completionError :
    callShareWithSSE parseEmptyObj ["event: error", "data: " ++ errJsonEmpty]
      = Except.error "Share failed"
    ∧ (Except.error "Share failed" : Except String ShareResult)
      ≠ Except.error "Share stream ended without completion" := by
  refine ⟨by decide, by decide⟩

/-- Claim C5 (amended): on both the single-shot and the chunked-finalize
paths, a stream whose relay run parses no `complete` event makes the share
operation fail rather than resolve — with the path's
stream-ended-without-completion error, unless a parsed error event carrying
no message (equivalently, the message `"Share failed"`) already terminated
the run with the `"Share failed"` failure. -/
theorem stream_end_without_complete (parse : String → Option EventData) (lines : List String) :
    ((∀ res, (callShareWithSSEStream parse lines).outcome ≠ RelayOutcome.complete res) →
      callShareWithSSE parse lines = Except.error "Share stream ended without completion"
      ∨ callShareWithSSE parse lines = Except.error "Share failed")
    ∧ ((∀ res, (callChunkedFinalizeStream parse lines).outcome ≠ RelayOutcome.complete res) →
      callChunkedShareFinalize parse lines
          = Except.error "Chunked share stream ended without completion"
      ∨ callChunkedShareFinalize parse lines = Except.error "Share failed") := by
  constructor
  · intro hnc
    rcases runRelay_outcome_cases (fun pct => pct) parse lines "" [] [] with ⟨res, h⟩ | h | h
    · exact absurd h (hnc res)
    · right
      rw [callShareWithSSE, relayOutcomeToResult]
      rw [callShareWithSSEStream] at *
      rw [h]
    · left
      rw [callShareWithSSE, relayOutcomeToResult]
      rw [callShareWithSSEStream] at *
      rw [h]
  · intro hnc
    rcases runRelay_outcome_cases chunkedRemap parse lines "" [] [] with ⟨res, h⟩ | h | h
    · exact absurd h (hnc res)
    · right
      rw [callChunkedShareFinalize, relayOutcomeToResult]
      rw [callChunkedFinalizeStream] at *
      rw [h]
    · left
      rw [callChunkedShareFinalize, relayOutcomeToResult]
      rw [callChunkedFinalizeStream] at *
      rw [h]

/-- Parse oracle under which nothing parses. -/
def parseNothing : String → Option EventData := fun _ => none

set_option maxRecDepth 100000 in
/-- Witness for C5 (amended): a stream delivering one progress event and
then closing rejects on the single-shot path. -/
theorem stream_end_without_complete_witness :
    callShareWithSSE parseNothing ["event: progress", "data: oops"]
        = Except.error "Share stream ended without completion"
    ∨ callShareWithSSE parseNothing ["event: progress", "data: oops"]
        = Except.error "Share failed" :=
  (stream_end_without_complete parseNothing ["event: progress", "data: oops"]).1
    (fun res h => by
      rw [show (callShareWithSSEStream parseNothing ["event: progress", "data: oops"]).outcome
          = RelayOutcome.ended from by decide] at h
      exact RelayOutcome.noConfusion h)

theorem chunkedRemap_natCast (p : Nat) :
    chunkedRemap (p : Int) = 45 + (((p * 55) / 100 : Nat) : Int) := by
  rw [chunkedRemap]
  rw [Int.fdiv_eq_ediv _ (by norm_num)]
  omega

/-- Claim C8: with 3 chunks the reported upload percentages are `10, 20, 30`
— strictly increasing and inside the reserved 10–40 band — and the
finalize-phase remapping is monotone from server percentages 0–100 into the
reserved 45–100 band. -/
theorem chunked_progress_monotone :
    chunkedUploadProgressPercents 3 = [10, 20, 30]
    ∧ List.Chain' (· < ·) (chunkedUploadProgressPercents 3)
    ∧ (∀ x ∈ chunkedUploadProgressPercents 3, 10 ≤ x ∧ x ≤ 40)
    ∧ (∀ p q : Nat, p ≤ q → q ≤ 100 → chunkedRemap (p : Int) ≤ chunkedRemap (q : Int))
    ∧ (∀ p : Nat, p ≤ 100 → 45 ≤ chunkedRemap (p : Int) ∧ chunkedRemap (p : Int) ≤ 100) := by
  refine ⟨by decide, ?_, by decide, ?_, ?_⟩
  · rw [show chunkedUploadProgressPercents 3 = [10, 20, 30] from by decide]
    rw [List.chain'_cons, List.chain'_cons]
    exact ⟨by omega, by omega, List.chain'_singleton 30⟩
  · intro p q hpq _
    rw [chunkedRemap_natCast, chunkedRemap_natCast]
    have hdiv : (p * 55) / 100 ≤ (q * 55) / 100 :=
      Nat.div_le_div_right (Nat.mul_le_mul_right 55 hpq)
    omega
  · intro p hp
    rw [chunkedRemap_natCast]
    have hdiv : (p * 55) / 100 ≤ (100 * 55) / 100 :=
      Nat.div_le_div_right (Nat.mul_le_mul_right 55 hp)
    have hval : (100 * 55) / 100 = 55 := by decide
    omega

/-- Witness for C8: monotonicity and the band bounds discharged at the
server percentages 50 and 100. -/
theorem chunked_progress_monotone_witness :
    chunkedRemap ((50 : Nat) : Int) ≤ chunkedRemap ((100 : Nat) : Int) :=
  chunked_progress_monotone.2.2.2.1 50 100 (by decide) (by decide)

/-! ## Git utilities (`src/plugin/local-mcp/utils/git-utils.ts`)

Git subprocess output is an oracle (each `gitExec` call a field or function
returning `Option String`: `none` models a failed command, the string the
trimmed stdout otherwise). URLs are handled as character lists so that the
regex replacements stay structural; the WHATWG `new URL` parser is the
oracle `parseURL`. -/

/-- Host and pathname of a successfully parsed URL. -/
structure URLParts where
  host : List Char
  pathname : List Char

/-- The first regex replacement of `sanitizeRemoteUrl`:
`url.replace(/\.git$/, "")` removes one trailing `.git`. -/
def stripDotGit (url : List Char) : List Char :=
  if ".git".toList.isSuffixOf url then url.take (url.length - 4) else url

/-- JS `cleaned.replace(":", "/")`: a string pattern replaces only the first
occurrence. -/
def replaceFirstColon : List Char → List Char
  | [] => []
  | c :: rest => if c = ':' then '/' :: rest else c :: replaceFirstColon rest

/-- The `[^@]+@` part of the credential regex, applied to the characters
after the scheme: `some` of the remainder after the first `@` when a
nonempty run of non-`@` characters precedes it, `none` when the regex does
not match. -/
def afterFirstAt (rest : List Char) : Option (List Char) :=
  if (rest.takeWhile (fun c => !(c == '@'))).length < rest.length
      ∧ rest.takeWhile (fun c => !(c == '@')) ≠ [] then
    some (rest.drop ((rest.takeWhile (fun c => !(c == '@'))).length + 1))
  else none

/-- The first catch-branch replacement `.replace(/^https?:\/\/[^@]+@/, "")`:
when the string starts with a scheme followed by a nonempty credential block
and an `@`, everything up to and including that `@` is removed; otherwise
the string is unchanged. -/
def stripSchemeCreds (cleaned : List Char) : List Char :=
  if "https://".toList.isPrefixOf cleaned then
    match afterFirstAt (cleaned.drop 8) with
    | some tail => tail
    | none => cleaned
  else if "http://".toList.isPrefixOf cleaned then
    match afterFirstAt (cleaned.drop 7) with
    | some tail => tail
    | none => cleaned
  else cleaned

/-- The second catch-branch replacement `.replace(/^https?:\/\//, "")`:
strip a leading scheme. -/
def stripScheme (s : List Char) : List Char :=
  if "https://".toList.isPrefixOf s then s.drop 8
  else if "http://".toList.isPrefixOf s then s.drop 7
  else s

/-- The chained catch-branch replacements
`.replace(/^https?:\/\/[^@]+@/, "").replace(/^https?:\/\//, "")`: the
scheme-stripping second replacement applies to the result of the
credential-stripping first one (so `https://u@https://x` yields `x`). -/
def stripHttpCreds (cleaned : List Char) : List Char :=
  stripScheme (stripSchemeCreds cleaned)

/-- Embedding of `sanitizeRemoteUrl`: strip one `.git` suffix; the SSH form
drops `git@` and turns the first `:` into `/`; otherwise the URL parser's
host+pathname, or the credential-stripping fallback when parsing fails. -/
def sanitizeRemoteUrl (parseURL : List Char → Option URLParts)
    (url : Option (List Char)) : Option (List Char) :=
  match url with
  | none => none
  | some u =>
    if u.isEmpty then none
    else
      let cleaned := stripDotGit u
      if "git@".toList.isPrefixOf cleaned then
        some (replaceFirstColon (cleaned.drop 4))
      else
        match parseURL cleaned with
        | some parts => some (parts.host ++ parts.pathname)
        | none => some (stripHttpCreds cleaned)

/-- The git subprocess outputs consulted by `getGitInfo`. -/
structure GitInfoEnv where
  isRepo : Bool
  branch : Option String
  commitShort : Option String
  commitFull : Option String
  commitMessage : Option String
  rawRemoteUrl : Option (List Char)
  timestamp : Option String
  statusPorcelain : Option String

/-- The `GitInfo` record. -/
structure GitInfo where
  branch : Option String
  commitShort : Option String
  commitFull : Option String
  commitMessage : Option String
  remoteUrl : Option (List Char)
  isDirty : Bool
  timestamp : Option String

/-- Embedding of `hasUncommittedChanges`:
`status !== null && status.length > 0`. -/
def hasUncommittedChanges (env : GitInfoEnv) : Bool :=
  match env.statusPorcelain with
  | none => false
  | some status => decide (0 < status.length)

/-- Embedding of `getGitInfo`: `null` outside a repository, otherwise the
collected fields with the remote URL passed through `sanitizeRemoteUrl`. -/
def getGitInfo (parseURL : List Char → Option URLParts) (env : GitInfoEnv) : Option GitInfo :=
  if env.isRepo then
    some { branch := env.branch
           commitShort := env.commitShort
           commitFull := env.commitFull
           commitMessage := env.commitMessage
           remoteUrl := sanitizeRemoteUrl parseURL env.rawRemoteUrl
           isDirty := hasUncommittedChanges env
           timestamp := env.timestamp }
  else none

/-- Counterexample to claim C10 as stated, at two explicit non-null inputs.
First, `git@github.com:org/repo.git.git` sanitizes to
`github.com/org/repo.git`, which still ends in `.git` — the replacement
removes only one suffix occurrence. Second, `deploy@github.com:org/repo.git`
— an scp-style remote whose userinfo is `deploy` rather than `git`, so the
SSH branch is not taken and `new URL` rejects it (`deploy@github.com` is no
valid scheme; the oracle returns `none`) — sanitizes to
`deploy@github.com:org/repo`, which still carries the embedded userinfo
`deploy@`: the fallback strips credentials only behind an `http(s)://`
scheme, so the result is not credential-free. -/
theorem sanitizeRemoteUrl_counterexamples :
    sanitizeRemoteUrl (fun _ => none) (some "git@github.com:org/repo.git.git".toList)
      = some "github.com/org/repo.git".toList
    ∧ ".git".toList.isSuffixOf "github.com/org/repo.git".toList = true
    ∧ sanitizeRemoteUrl (fun _ => none) (some "deploy@github.com:org/repo.git".toList)
      = some "deploy@github.com:org/repo".toList
    ∧ "deploy@".toList.isPrefixOf "deploy@github.com:org/repo".toList = true := by
  refine ⟨by decide, by decide, by decide, by decide⟩

/-- Modelled from the spec: the WHATWG URL parser (Node `new URL`, external
to this repository) at the documented HTTPS example — userinfo is dropped,
host and pathname are exposed. -/
def urlParserExample : List Char → Option URLParts :=
  fun s =>
    if s = "https://token@github.com/org/repo".toList then
      some { host := "github.com".toList, pathname := "/org/repo".toList }
    else none

theorem takeWhile_stops_at_atSign (rest : List Char) :
    ∀ (creds : List Char), '@' ∉ creds →
      (creds ++ '@' :: rest).takeWhile (fun c => !(c == '@')) = creds := by
  intro creds
  induction creds with
  | nil =>
    intro _
    rw [List.nil_append]
    exact List.takeWhile_cons_of_neg (by simp)
  | cons c cs ih =>
    intro h
    have hc : c ≠ '@' := fun hceq => h (hceq ▸ List.mem_cons_self c cs)
    rw [List.cons_append]
    rw [List.takeWhile_cons_of_pos (by simp [hc])]
    rw [ih (fun hmem => h (List.mem_cons_of_mem c hmem))]

theorem afterFirstAt_append (creds rest : List Char)
    (hne : creds ≠ []) (hnm : '@' ∉ creds) :
    afterFirstAt (creds ++ '@' :: rest) = some rest := by
  rw [afterFirstAt]
  rw [takeWhile_stops_at_atSign rest creds hnm]
  rw [if_pos ⟨by simp, hne⟩]
  rw [show creds ++ '@' :: rest = (creds ++ ['@']) ++ rest by simp]
  rw [List.drop_left' (by simp)]

/-- Claim C10 (amended): `sanitizeRemoteUrl` maps the two documented example
URLs to `github.com/org/repo`; it strips one trailing `.git`, so the string
fed to the branch transforms ends in `.git` only when the input ended in
`.git.git`; the credential forms it removes are a successful URL parse's
(which keeps only host and pathname), the fallback's leading
`http(s)://<credentials>@` block — followed by stripping any remaining
leading scheme — and the SSH form's leading `git@`, while credentials in
any other position survive (witness `deploy@github.com:org/repo.git`); and
`getGitInfo` stores the origin remote URL only after passing it through
`sanitizeRemoteUrl`. -/
theorem sanitizeRemoteUrl_spec (parseURL : List Char → Option URLParts)
    (env : GitInfoEnv) (u : List Char) (gi : GitInfo) (creds rest : List Char) :
    sanitizeRemoteUrl parseURL (some "git@github.com:org/repo.git".toList)
      = some "github.com/org/repo".toList
    ∧ sanitizeRemoteUrl urlParserExample (some "https://token@github.com/org/repo.git".toList)
      = some "github.com/org/repo".toList
    ∧ (".git".toList.isSuffixOf (stripDotGit u) = true →
        ".git.git".toList.isSuffixOf u = true)
    ∧ (creds ≠ [] → '@' ∉ creds →
        stripHttpCreds ("https://".toList ++ (creds ++ '@' :: rest)) = stripScheme rest)
    ∧ (∀ parts, u.isEmpty = false →
        "git@".toList.isPrefixOf (stripDotGit u) = false →
        parseURL (stripDotGit u) = some parts →
        sanitizeRemoteUrl parseURL (some u) = some (parts.host ++ parts.pathname))
    ∧ sanitizeRemoteUrl urlParserExample (some "deploy@github.com:org/repo.git".toList)
      = some "deploy@github.com:org/repo".toList
    ∧ (getGitInfo parseURL env = some gi →
        gi.remoteUrl = sanitizeRemoteUrl parseURL env.rawRemoteUrl) := by
  refine ⟨by rfl, by decide, ?_, ?_, ?_, by decide, ?_⟩
  · intro h
    rw [stripDotGit] at h
    by_cases hs : ".git".toList.isSuffixOf u = true
    · rw [if_pos hs] at h
      rw [List.isSuffixOf_iff_suffix] at h hs
      obtain ⟨t, ht⟩ := hs
      obtain ⟨t2, ht2⟩ := h
      rw [List.isSuffixOf_iff_suffix]
      refine ⟨t2, ?_⟩
      have hlen : u.length - 4 = t.length := by
        rw [← ht]
        simp
      rw [hlen, ← ht, List.take_left] at ht2
      rw [← ht, ← ht2]
      rw [show ".git.git".toList = ".git".toList ++ ".git".toList from rfl]
      simp
    · rw [if_neg hs] at h
      exact absurd h hs
  · intro hne hnm
    rw [stripHttpCreds, stripSchemeCreds]
    have hpre : "https://".toList.isPrefixOf ("https://".toList ++ (creds ++ '@' :: rest)) = true :=
      List.isPrefixOf_iff_prefix.mpr ⟨creds ++ '@' :: rest, rfl⟩
    rw [if_pos hpre]
    rw [List.drop_left' (show ("https://".toList).length = 8 from rfl)]
    rw [afterFirstAt_append creds rest hne hnm]
  · intro parts hne hng hparse
    show (if u.isEmpty = true then none
        else if "git@".toList.isPrefixOf (stripDotGit u) = true then
          some (replaceFirstColon ((stripDotGit u).drop 4))
        else
          match parseURL (stripDotGit u) with
          | some parts => some (parts.host ++ parts.pathname)
          | none => some (stripHttpCreds (stripDotGit u)))
      = some (parts.host ++ parts.pathname)
    rw [hne, if_neg Bool.false_ne_true, hng, if_neg Bool.false_ne_true, hparse]
  · intro h
    rw [getGitInfo] at h
    by_cases hr : env.isRepo = true
    · rw [if_pos hr] at h
      injection h with h2
      rw [← h2]
    · rw [if_neg hr] at h
      exact Option.noConfusion h

/-- Arbitrary concrete git oracle for the C10 witness. -/
def demoGitInfoEnv : GitInfoEnv :=
  { isRepo := true, branch := some "feature", commitShort := some "abc1234"
    commitFull := some "abc1234abc1234", commitMessage := some "msg"
    rawRemoteUrl := some "git@github.com:org/repo.git".toList
    timestamp := some "2026-01-01T00:00:00Z", statusPorcelain := some "" }

/-- Arbitrary concrete `GitInfo` value for the C10 witness. -/
def demoGitInfo : GitInfo :=
  { branch := some "feature", commitShort := some "abc1234"
    commitFull := some "abc1234abc1234", commitMessage := some "msg"
    remoteUrl := some "github.com/org/repo".toList, isDirty := false
    timestamp := some "2026-01-01T00:00:00Z" }

/-- Witness for C10 (amended): the suffix conjunct discharged at the input
`a.git.git`, and the fallback credential-stripping conjunct discharged at
the credential block `token`. -/
theorem sanitizeRemoteUrl_spec_witness :
    ".git.git".toList.isSuffixOf "a.git.git".toList = true
    ∧ stripHttpCreds ("https://".toList ++ ("token".toList ++ '@' :: "github.com/org/repo".toList))
      = stripScheme "github.com/org/repo".toList :=
  ⟨(sanitizeRemoteUrl_spec (fun _ => none) demoGitInfoEnv "a.git.git".toList demoGitInfo
      "token".toList "github.com/org/repo".toList).2.2.1 (by decide),
   (sanitizeRemoteUrl_spec (fun _ => none) demoGitInfoEnv "a.git.git".toList demoGitInfo
      "token".toList "github.com/org/repo".toList).2.2.2.1 (by decide) (by decide)⟩

/-- The git subprocess outputs consulted by `getDefaultBranch` and
`getGitDiff`. -/
structure GitDiffEnv where
  isRepo : Bool
  verifyBranch : String → Option String
  originHead : Option String
  currentBranch : Option String
  mergeBaseOf : String → Option String
  diffStatOf : String → Option String
  diffOf : String → Option String

/-- Embedding of `getDefaultBranch`: `main` if it verifies, else `master`,
else the `origin/HEAD` symbolic ref target, else `null`. (JS
`String.prototype.replace` with a string pattern replaces the first
occurrence; the prefix occurs once in a symbolic ref, so `String.replace`
coincides.) -/
def getDefaultBranch (env : GitDiffEnv) : Option String :=
  if !env.isRepo then none
  else if (env.verifyBranch "main").isSome then some "main"
  else if (env.verifyBranch "master").isSome then some "master"
  else
    match env.originHead with
    | some originHead =>
      if originHead ≠ "" then some (originHead.replace "refs/remotes/origin/" "") else none
    | none => none

/-- The `GitDiffResult` record. -/
structure GitDiffResult where
  baseBranch : String
  currentBranch : String
  mergeBase : String
  diff : String
  diffStat : String
  isTruncated : Bool
  totalBytes : Nat
deriving DecidableEq

/-- Embedding of `getGitDiff`: `null` outside a repository, without a
determinable base branch, on the base branch itself, without a merge base,
or with an empty merge-base diff; otherwise the (possibly truncated) diff
record. -/
def getGitDiff (env : GitDiffEnv) (maxBytes : Nat) (baseBranchArg : Option String) :
    Option GitDiffResult :=
  if !env.isRepo then none
  else
    match (if optTruthy baseBranchArg then baseBranchArg else getDefaultBranch env) with
    | none => none
    | some defaultBranch =>
      match env.currentBranch with
      | none => none
      | some currentBranch =>
        if currentBranch = "" then none
        else if currentBranch = defaultBranch then none
        else
          match env.mergeBaseOf defaultBranch with
          | none => none
          | some mergeBase =>
            if mergeBase = "" then none
            else
              let diffStat := jsOrStr (env.diffStatOf mergeBase) ""
              match env.diffOf mergeBase with
              | none => none
              | some diff =>
                if diff.length = 0 then none
                else
                  some { baseBranch := defaultBranch
                         currentBranch := currentBranch
                         mergeBase := mergeBase.take 7
                         diff := if maxBytes < diff.length then
                             diff.take maxBytes ++ "\n... (truncated)"
                           else diff
                         diffStat := diffStat
                         isTruncated := decide (maxBytes < diff.length)
                         totalBytes := diff.length }

/-- Oracle for a repository in which no base branch can be determined. -/
def envNoBase : GitDiffEnv :=
  { isRepo := true, verifyBranch := fun _ => none, originHead := none
    currentBranch := some "feature", mergeBaseOf := fun _ => none
    diffStatOf := fun _ => none, diffOf := fun _ => none }

/-- Oracle for a repository with base branch `main` and a branch with zero
commits ahead of the merge base (empty diff). -/
def envEmptyDiff : GitDiffEnv :=
  { isRepo := true, verifyBranch := fun b => if b = "main" then some "ref" else none
    originHead := none, currentBranch := some "feature"
    mergeBaseOf := fun _ => some "abcdef1234567890"
    diffStatOf := fun _ => some "", diffOf := fun _ => some "" }

/-- Counterexample to claim C7 as stated: the repository with no
determinable base branch and the repository with a base branch but an empty
merge-base diff yield the very same return value `null` — the two
conditions are not distinguishable in `getGitDiff`'s result. -/
theorem getGitDiff_not_distinguishable :
    getGitDiff envNoBase 50000 none = none
    ∧ getGitDiff envEmptyDiff 50000 none = none
    ∧ getDefaultBranch envNoBase = none
    ∧ getDefaultBranch envEmptyDiff = some "main" := by
  refine ⟨by decide, by decide, by decide, by decide⟩

/-- Claim C7 (amended): `getGitDiff` returns `null` both when no base branch
can be determined (and none is passed in) and when every candidate
merge-base diff is empty or fails; the two conditions map to the same
return value and are not distinguished. -/
theorem getGitDiff_null_cases (env : GitDiffEnv) (maxBytes : Nat) :
    (getDefaultBranch env = none → getGitDiff env maxBytes none = none)
    ∧ ((∀ m, optTruthy (env.diffOf m) = false) → getGitDiff env maxBytes none = none) := by
  constructor
  · intro h
    rw [getGitDiff]
    cases hb : env.isRepo with
    | false => rfl
    | true =>
      simp only [hb, Bool.not_true, Bool.false_eq_true, if_false]
      simp only [optTruthy, Bool.false_eq_true, if_false, h]
  · intro h
    rw [getGitDiff]
    split
    · rfl
    · split
      · rfl
      · next defaultBranch hdb =>
        split
        · rfl
        · next currentBranch hcb =>
          split
          · rfl
          · split
            · rfl
            · split
              · rfl
              · next mergeBase hmb =>
                split
                · rfl
                · split
                  · rfl
                  · next diff hdiff =>
                    split
                    · rfl
                    · next hlen =>
                      exfalso
                      have hd := h mergeBase
                      rw [hdiff] at hd
                      apply hlen
                      have hde : diff = "" := by
                        by_contra hne
                        simp [optTruthy, hne] at hd
                      rw [hde]
                      rfl

/-- Witness for C7 (amended): the empty-diff oracle yields `null` through
the second conjunct. -/
theorem getGitDiff_null_cases_witness :
    getGitDiff envEmptyDiff 100 none = none :=
  (getGitDiff_null_cases envEmptyDiff 100).2 (fun _ => rfl)

end Inflight
